import Mathlib

/-!
Verification of `GridMaze/solenoid_autocalibation/code/autocalibration_script.py`.

The script is a linear pipeline: load the most recent (or a named) tab-separated
autocalibration log, derive per-release volumes, fit per-poke linear regressions
(independent ordinary least squares, and maximum-a-posteriori fits from a mixed
effects regression), optionally plot, and write the chosen fit collection to a
results file as the `repr` of a `{poke: {"s": slope, "i": intercept}}` mapping.

The embedding below is a shallow one:

* machine reals become `ℚ` (the script's arithmetic — `abs`, division,
  multiplication, least-squares normal equations, `round(x, 2)` — is modelled
  exactly on rationals);
* the filesystem becomes an explicit association list from path to contents,
  and the directory listing, `pd.read_csv`, `ast.literal_eval` of a content
  cell, `pd.to_datetime`, and the `statsmodels` mixed-effects optimizer are
  external library calls modelled as oracle fields of an `Env` record;
* fallible steps return `Except`/`Option`: the `IndexError` from
  `f.split("-", 1)[1]`, the `pd.to_datetime` parse error, `max()` of an empty
  sequence, the `assert` with its user-facing message, a failing
  `ast.literal_eval`, and a failing mixed-effects optimization;
* `np.polyfit(x, y, deg := 1)` is the least-squares line, embedded by its
  normal-equations closed form;
* `repr` of the result dictionary and `ast.literal_eval` of the written text
  are embedded as an executable printer and an executable character-level
  parser over the value domain the script produces (finite mappings from poke
  to two-decimal rationals).
-/

/-! ### Character and string utilities -/

/-- The character for decimal digit `d` (`0 ↦ '0'`, …, `9 ↦ '9'`). -/
def digitChar (d : Nat) : Char := Char.ofNat (48 + d)

/-- Accumulator loop producing the decimal digit characters of `n` (most
significant first) in front of `acc`. -/
def natDigitsAux : Nat → List Char → List Char
  | 0, acc => acc
  | n + 1, acc => natDigitsAux ((n + 1) / 10) (digitChar ((n + 1) % 10) :: acc)
termination_by n => n
decreasing_by exact Nat.div_lt_self (Nat.succ_pos n) (by omega)

/-- Decimal digit characters of `n`, as Python prints a nonnegative integer. -/
def natDigits (n : Nat) : List Char :=
  if n = 0 then [digitChar 0] else natDigitsAux n []

/-- The numeric value of a run of decimal digit characters. -/
def digitsVal (ds : List Char) : Nat :=
  ds.foldl (fun a c => 10 * a + (c.toNat - 48)) 0

/-- The single-quote character, used by Python `repr` around the keys
`'s'` and `'i'`. -/
def squote : Char := Char.ofNat 39

/-- The opening-brace character of a Python `dict` display. -/
def lbrace : Char := Char.ofNat 123

/-- The closing-brace character of a Python `dict` display. -/
def rbrace : Char := Char.ofNat 125

/-- Characters strictly after the first occurrence of `c`, or `none` when `c`
does not occur.  Models the `[1]` index of Python `s.split(c, 1)`, whose
`IndexError` on a `c`-free string is the `none` case. -/
def afterFirst (c : Char) : List Char → Option (List Char)
  | [] => none
  | x :: xs => if x = c then some xs else afterFirst c xs

/-- Characters strictly before the first occurrence of `c` (the whole list when
`c` does not occur).  Models the `[0]` index of Python `s.split(c)`. -/
def beforeFirst (c : Char) (l : List Char) : List Char :=
  l.takeWhile (fun x => x ≠ c)

/-- Boolean suffix test on strings, modelling Python `str.endswith`. -/
def endsWithStr (f suffix : String) : Bool :=
  suffix.toList.isSuffixOf f.toList

/-- Path concatenation with a `/` separator, modelling `os.path.join` on the
POSIX hosts the script targets. -/
def joinPath (dir file : String) : String := dir ++ "/" ++ file

/-- Decidable equality on `Except`, used to evaluate loader results on
concrete inputs. -/
instance {e a : Type} [DecidableEq e] [DecidableEq a] : DecidableEq (Except e a)
  | .error x, .error y =>
    if h : x = y then .isTrue (by rw [h]) else .isFalse (by intro hc; cases hc; exact h rfl)
  | .error _, .ok _ => .isFalse (fun hc => Except.noConfusion hc)
  | .ok _, .error _ => .isFalse (fun hc => Except.noConfusion hc)
  | .ok x, .ok y =>
    if h : x = y then .isTrue (by rw [h]) else .isFalse (by intro hc; cases hc; exact h rfl)

/-! ### Data model -/

/-- One autocalibration event as it appears after `ast.literal_eval` of a
`print`-subtype content cell: the raw row, before the loader normalizes the
weight sign and derives the per-release volume. -/
structure EventRaw where
  poke : Nat
  release_duration : ℚ
  release_weight : ℚ
  n_release : ℚ
deriving DecidableEq

/-- One row of the loaded event table `autocal_df`: the raw fields with the
weight replaced by its absolute value, plus the derived per-release volume in
microliters. -/
structure Event where
  poke : Nat
  release_duration : ℚ
  release_weight : ℚ
  n_release : ℚ
  single_release_vol : ℚ
deriving DecidableEq

/-- Per-poke fit parameters: slope `s` (ms/uL) and intercept `i` (ms), the
values stored under the keys `"s"` and `"i"`. -/
structure FitParams where
  s : ℚ
  i : ℚ
deriving DecidableEq

/-- One parsed row of the tab-separated log file, restricted to the two columns
the loader reads: the `subtype` tag and the `content` cell. -/
structure TsvRow where
  subtype : String
  content : String
deriving DecidableEq

/-- The ways `load_autocalibration_results` can raise.  `stampIndexError f` is
the `IndexError` of `f.split("-", 1)[1]` on a hyphen-free name; `stampParseError
f` is `pd.to_datetime` failing on the stamp of `f`; `emptyMax` is `max()` of an
empty sequence; `missingFile f dir` is the `assert` failure whose message names
the missing file `f` and the search directory `dir`; `contentError c` is
`ast.literal_eval` failing on the content cell `c`. -/
inductive LoadError where
  | stampIndexError (f : String)
  | stampParseError (f : String)
  | emptyMax
  | missingFile (f : String) (dir : String)
  | contentError (c : String)
deriving DecidableEq

/-- Fixed effects of the mixed-effects fit, named as `statsmodels` names them:
the coefficient on `single_release_vol` (the population slope) and the
`Intercept`. -/
structure FEParams where
  single_release_vol : ℚ
  Intercept : ℚ

/-- Random effects of one poke, named as `statsmodels` names them: the
per-group deviation of the slope on `single_release_vol` and the `Group`
intercept deviation. -/
structure REParams where
  single_release_vol : ℚ
  Group : ℚ

/-- The fitted mixed-effects model object `mdf`, reduced to the two attributes
the script reads: `fe_params` and `random_effects`. -/
structure MEFitResult where
  fe_params : FEParams
  random_effects : Nat → REParams

/-- External-world oracles of one run: `listing` is `os.listdir` of the data
directory; `toDT` is `pd.to_datetime` on a filename stamp (a timestamp on the
chronological line, embedded as `Nat`, `none` on parse failure); `readCsv` is
`pd.read_csv(path, sep := tab)` restricted to the two columns read; `litEval`
is `ast.literal_eval` of one content cell; `meFit` is
`smf.mixedlm(...).fit(method := lbfgs)`, `none` when the optimizer raises. -/
structure Env where
  listing : List String
  toDT : String → Option Nat
  readCsv : String → List TsvRow
  litEval : String → Option EventRaw
  meFit : List Event → Option MEFitResult

/-- The global constant `AUTOCALIBRATION_DATA_PATH`. -/
def AUTOCALIBRATION_DATA_PATH : String := "autocalibration_data"

/-- The global constant `AUTOCALIBRATION_RESULTS_PATH`. -/
def AUTOCALIBRATION_RESULTS_PATH : String := "autocalibration_results"

/-! ### Data loader -/

/-- The stamp substring of a filename: `f.split("-", 1)[1].split(".")[0]`,
`none` when the name has no hyphen (Python raises `IndexError` there). -/
def stampOf (f : String) : Option String :=
  (afterFirst '-' f.toList).map (fun cs => String.mk (beforeFirst '.' cs))

/-- The parsed timestamp of a filename: its stamp substring fed to
`pd.to_datetime`. -/
def stampVal (toDT : String → Option Nat) (f : String) : Option Nat :=
  (stampOf f).bind toDT

/-- The list comprehension
`[pd.to_datetime(f.split("-", 1)[1].split(".")[0]) for f in autocal_files]`:
parses every filename's stamp in listing order, raising at the first failure. -/
def parseAllStamps (toDT : String → Option Nat) : List String → Except LoadError (List Nat)
  | [] => .ok []
  | f :: fs =>
    match stampOf f with
    | none => .error (.stampIndexError f)
    | some s =>
      match toDT s with
      | none => .error (.stampParseError f)
      | some d => (parseAllStamps toDT fs).map (fun ds => d :: ds)

/-- The file-selection prefix of `load_autocalibration_results`: filter the
directory listing to `.tsv` names, parse every stamp, pick the file at the
index of the maximal stamp when no filename was given, then run the `assert`
that the (given or selected) filename is among the discovered files.  Only
filename stamps are consulted — the code never reads filesystem modification
times. -/
def selectDataFile (toDT : String → Option Nat) (listing : List String)
    (data_filename : Option String) : Except LoadError String :=
  let autocal_files := listing.filter (fun f => endsWithStr f ".tsv")
  match parseAllStamps toDT autocal_files with
  | .error e => .error e
  | .ok autocal_datetimes =>
    match data_filename with
    | none =>
      match autocal_datetimes.max? with
      | none => .error .emptyMax
      | some m =>
        match autocal_files.get? (autocal_datetimes.indexOf m) with
        | none => .error .emptyMax
        | some f =>
          if f ∈ autocal_files then .ok f
          else .error (.missingFile f AUTOCALIBRATION_DATA_PATH)
    | some f =>
      if f ∈ autocal_files then .ok f
      else .error (.missingFile f AUTOCALIBRATION_DATA_PATH)

/-- `ast.literal_eval` applied to every content cell in order, raising at the
first cell that fails to evaluate. -/
def litEvalAll (litEval : String → Option EventRaw) : List String → Except LoadError (List EventRaw)
  | [] => .ok []
  | c :: cs =>
    match litEval c with
    | none => .error (.contentError c)
    | some r => (litEvalAll litEval cs).map (fun rs => r :: rs)

/-- The raw-row stage of `load_autocalibration_results`: select the data file,
read it, keep the rows whose `subtype` is `"print"`, and literal-evaluate each
of their content cells. -/
def loadRaws (env : Env) (data_filename : Option String) : Except LoadError (List EventRaw) :=
  match selectDataFile env.toDT env.listing data_filename with
  | .error e => .error e
  | .ok fname =>
    let rows := (env.readCsv (joinPath AUTOCALIBRATION_DATA_PATH fname)).filter
      (fun r => r.subtype == "print")
    litEvalAll env.litEval (rows.map (fun r => r.content))

/-- One row of the derivation step: replace `release_weight` by its absolute
value, then set `single_release_vol` to `release_weight / n_release * 1000`
(in microliters) — which, after the replacement, is
`abs(weight) / n_release * 1000`. -/
def deriveOne (r : EventRaw) : Event :=
  { poke := r.poke
    release_duration := r.release_duration
    release_weight := |r.release_weight|
    n_release := r.n_release
    single_release_vol := |r.release_weight| / r.n_release * 1000 }

/-- The dataframe-derivation step of `load_autocalibration_results`, applied
row-wise. -/
def deriveEvents (raws : List EventRaw) : List Event := raws.map deriveOne

/-- `load_autocalibration_results`: the raw-row stage followed by the
derivation step. -/
def load_autocalibration_results (env : Env) (data_filename : Option String) :
    Except LoadError (List Event) :=
  (loadRaws env data_filename).map deriveEvents

/-! ### Rounding -/

/-- Round-half-to-even on rationals, modelling Python 3 `round` to an integer:
the nearest integer, ties going to the even neighbour. -/
def roundHalfEven (q : ℚ) : ℤ :=
  if q - Int.floor q < 1/2 then Int.floor q
  else if 1/2 < q - Int.floor q then Int.floor q + 1
  else if Int.floor q % 2 = 0 then Int.floor q else Int.floor q + 1

/-- Python `round(x, 2)`: round half to even at the second decimal place. -/
def round2 (q : ℚ) : ℚ := (roundHalfEven (q * 100) : ℚ) / 100

/-- A rational is a centi-value when it is an integer multiple of `1/100`,
i.e. it carries at most two decimal places. -/
def isCent (q : ℚ) : Prop := (100 * q).den = 1

/-- Two-decimal membership is decidable, so concrete fits can be checked. -/
instance (q : ℚ) : Decidable (isCent q) :=
  inferInstanceAs (Decidable ((100 * q).den = 1))

/-! ### Independent regression fitter -/

/-- Sum of the x coordinates of a point list. -/
def sumX (pts : List (ℚ × ℚ)) : ℚ := (pts.map Prod.fst).sum

/-- Sum of the y coordinates of a point list. -/
def sumY (pts : List (ℚ × ℚ)) : ℚ := (pts.map Prod.snd).sum

/-- Sum of the squared x coordinates of a point list. -/
def sumXX (pts : List (ℚ × ℚ)) : ℚ := (pts.map (fun p => p.1 * p.1)).sum

/-- Sum of the products x·y over a point list. -/
def sumXY (pts : List (ℚ × ℚ)) : ℚ := (pts.map (fun p => p.1 * p.2)).sum

/-- Slope of the least-squares line through the points, by the
normal-equations closed form. -/
def olsSlope (pts : List (ℚ × ℚ)) : ℚ :=
  ((pts.length : ℚ) * sumXY pts - sumX pts * sumY pts) /
    ((pts.length : ℚ) * sumXX pts - sumX pts * sumX pts)

/-- Intercept of the least-squares line through the points. -/
def olsIntercept (pts : List (ℚ × ℚ)) : ℚ :=
  (sumY pts - olsSlope pts * sumX pts) / (pts.length : ℚ)

/-- `np.polyfit(x, y, deg := 1)`: the least-squares line through the points,
embedded by its normal-equations closed form, returned as
(slope, intercept). -/
def olsFit (pts : List (ℚ × ℚ)) : ℚ × ℚ := (olsSlope pts, olsIntercept pts)

/-- First-occurrence deduplication, modelling `pandas.Series.unique`, which
returns the distinct values in order of first appearance. -/
def uniqueFirst : List Nat → List Nat
  | [] => []
  | x :: xs => x :: uniqueFirst (xs.filter (fun y => y ≠ x))
termination_by l => l.length
decreasing_by exact Nat.lt_succ_of_le (List.length_filter_le _ xs)

/-- The (volume, duration) points of one poke: the rows of the event table with
that poke, each contributing `(single_release_vol, release_duration)`. -/
def ptsOf (autocal_df : List Event) (poke : Nat) : List (ℚ × ℚ) :=
  (autocal_df.filter (fun e => e.poke == poke)).map
    (fun e => (e.single_release_vol, e.release_duration))

/-- `get_linear_regression_parameters`: for each poke of
`autocal_df.poke.unique()`, fit the least-squares line of that poke's events
and store slope and intercept rounded to 2 decimal places, keyed `"s"` and
`"i"`.  The returned association list stands for the dataframe
`pd.DataFrame(poke2fit).T` (index = pokes in first-appearance order, columns
`s`, `i`). -/
def get_linear_regression_parameters (autocal_df : List Event) : List (Nat × FitParams) :=
  (uniqueFirst (autocal_df.map (fun e => e.poke))).map
    (fun poke =>
      (poke, ⟨round2 (olsFit (ptsOf autocal_df poke)).1,
              round2 (olsFit (ptsOf autocal_df poke)).2⟩))

/-! ### Hierarchical (mixed-effects) regression fitter -/

/-- `get_mixed_effects_regression_parameters`: run the mixed-effects fit (the
`meFit` oracle; `none` when the optimizer raises), then for each poke of
`autocal_df.poke.unique()` store the fixed effect plus that poke's random
effect, slope and intercept each rounded to 2 decimal places. -/
def get_mixed_effects_regression_parameters (meFit : List Event → Option MEFitResult)
    (autocal_df : List Event) : Option (List (Nat × FitParams)) :=
  match meFit autocal_df with
  | none => none
  | some mdf =>
    some ((uniqueFirst (autocal_df.map (fun e => e.poke))).map
      (fun poke =>
        (poke, ⟨round2 (mdf.fe_params.single_release_vol + (mdf.random_effects poke).single_release_vol),
                round2 (mdf.fe_params.Intercept + (mdf.random_effects poke).Group)⟩)))

/-! ### Result writer: Python repr of the fit mapping -/

/-- Fractional display of a centi-fraction `frac/100` (`frac < 100`): the
shortest digit run Python shows after the decimal point — `0` for zero, one
digit when a whole tenth, two digits otherwise. -/
def fracChars (frac : Nat) : List Char :=
  if frac = 0 then [digitChar 0]
  else if frac % 10 = 0 then [digitChar (frac / 10)]
  else [digitChar (frac / 10), digitChar (frac % 10)]

/-- Python `repr` of the float `round(x, 2)` (a centi-value): the shortest
decimal display with at least one fractional digit, e.g. `2.0`, `1.5`, `-0.05`,
`1.23`.  (Exponent displays for huge magnitudes are outside the calibration
domain and not modelled.) -/
def reprQ2 (q : ℚ) : List Char :=
  (if Int.floor (q * 100) < 0 then ['-'] else []) ++
    natDigits ((Int.floor (q * 100)).natAbs / 100) ++
    '.' :: fracChars ((Int.floor (q * 100)).natAbs % 100)

/-- Python `repr` of one item of the transposed-dataframe dictionary:
`poke: {'s': slope, 'i': intercept}`. -/
def reprEntry (e : Nat × FitParams) : List Char :=
  natDigits e.1 ++ [':', ' ', lbrace, squote, 's', squote, ':', ' '] ++ reprQ2 e.2.s ++
    [',', ' ', squote, 'i', squote, ':', ' '] ++ reprQ2 e.2.i ++ [rbrace]

/-- The comma-separated items of a dict display, followed by the closing
brace. -/
def entriesChars : List (Nat × FitParams) → List Char
  | [] => [rbrace]
  | [e] => reprEntry e ++ [rbrace]
  | e :: e' :: es => reprEntry e ++ ',' :: ' ' :: entriesChars (e' :: es)

/-- `repr(poke2fit_params.T.to_dict())`: the Python `repr` of the dictionary
`{poke: {'s': slope, 'i': intercept}, ...}` with the pokes in dataframe-index
order.  (`pd.DataFrame(poke2fit).T` followed by `.T.to_dict()` is the identity
on the underlying mapping, so the association list is serialized directly.) -/
def reprFits (m : List (Nat × FitParams)) : String :=
  String.mk (lbrace :: entriesChars m)

/-! ### Entry point -/

/-- The filesystem visible to the script, as an association list from path to
file contents; the head is the most recent write. -/
def FileSys : Type := List (String × String)

/-- `open(path, "w")` followed by `f.write(contents)`: the write-then-close of
one whole file. -/
def writeFile (fs : FileSys) (path contents : String) : FileSys :=
  (path, contents) :: fs

/-- Contents of a path, `none` when the path was never written. -/
def readFS (fs : FileSys) (path : String) : Option String :=
  List.lookup path fs

/-- The ways `get_poke_calibration_parameters` can raise: an error propagated
from the loader, or the mixed-effects optimizer raising. -/
inductive RunError where
  | loadError (e : LoadError)
  | meFitError
deriving DecidableEq

/-- `get_poke_calibration_parameters`: load the event table, compute the
independent linear-regression fits and the mixed-effects fits, optionally plot
(display only — no filesystem effect), write the `repr` of the mixed-effects
fits when `save_mixed_effects` is true and of the linear-regression fits
otherwise to `AUTOCALIBRATION_RESULTS_PATH/save_filename`, and return both fit
collections.  The filesystem is passed and returned explicitly; an unhandled
exception leaves it untouched. -/
def get_poke_calibration_parameters (env : Env) (data_filename : Option String)
    (plot : Bool) (save_mixed_effects : Bool) (save_filename : String)
    (fs : FileSys) :
    FileSys × Except RunError (List (Nat × FitParams) × List (Nat × FitParams)) :=
  match load_autocalibration_results env data_filename with
  | .error e => (fs, .error (.loadError e))
  | .ok autocal_df =>
    let poke2fit_lr_params := get_linear_regression_parameters autocal_df
    match get_mixed_effects_regression_parameters env.meFit autocal_df with
    | none => (fs, .error .meFitError)
    | some poke2fit_me_params =>
      let _ := plot
      let save_path := joinPath AUTOCALIBRATION_RESULTS_PATH save_filename
      let contents :=
        if save_mixed_effects then reprFits poke2fit_me_params
        else reprFits poke2fit_lr_params
      (writeFile fs save_path contents, .ok (poke2fit_lr_params, poke2fit_me_params))

/-! ### Literal evaluation of the written text -/

/-- Consume a maximal nonempty run of decimal digits and return its value, its
digit count, and the remaining characters. -/
def parseDigits (cs : List Char) : Option (Nat × Nat × List Char) :=
  let ds := cs.takeWhile Char.isDigit
  if ds.isEmpty then none
  else some (digitsVal ds, ds.length, cs.dropWhile Char.isDigit)

/-- Consume an exact literal text and return the remaining characters. -/
def expectChars : List Char → List Char → Option (List Char)
  | [], cs => some cs
  | _ :: _, [] => none
  | p :: ps, c :: cs => if c = p then expectChars ps cs else none

/-- Parse a decimal float literal (optional minus sign, integer digits, a dot,
fractional digits), as `ast.literal_eval` reads the numbers `repr` wrote. -/
def parseQ2 (cs : List Char) : Option (ℚ × List Char) :=
  let signed : Bool × List Char :=
    match cs with
    | c :: cs' => if c = '-' then (true, cs') else (false, cs)
    | [] => (false, cs)
  match parseDigits signed.2 with
  | none => none
  | some (ipart, _, cs1) =>
    match cs1 with
    | [] => none
    | c :: cs2 =>
      if c = '.' then
        match parseDigits cs2 with
        | none => none
        | some (fval, flen, cs3) =>
          let q : ℚ := (ipart : ℚ) + (fval : ℚ) / ((10 : ℚ) ^ flen)
          some (if signed.1 then -q else q, cs3)
      else none

/-- Parse one dict item `poke: {'s': slope, 'i': intercept}`. -/
def parseEntry (cs : List Char) : Option ((Nat × FitParams) × List Char) :=
  match parseDigits cs with
  | none => none
  | some (k, _, cs1) =>
    match expectChars [':', ' ', lbrace, squote, 's', squote, ':', ' '] cs1 with
    | none => none
    | some cs2 =>
      match parseQ2 cs2 with
      | none => none
      | some (s, cs3) =>
        match expectChars [',', ' ', squote, 'i', squote, ':', ' '] cs3 with
        | none => none
        | some cs4 =>
          match parseQ2 cs4 with
          | none => none
          | some (i, cs5) =>
            match cs5 with
            | [] => none
            | c :: cs6 => if c = rbrace then some ((k, ⟨s, i⟩), cs6) else none

/-- Parse the comma-separated items of a nonempty dict display up to and
including the closing brace.  `fuel` bounds the number of items; each item
consumes at least one character, so the input length is always enough fuel. -/
def parseEntries : Nat → List Char → Option (List (Nat × FitParams) × List Char)
  | 0, _ => none
  | fuel + 1, cs =>
    match parseEntry cs with
    | none => none
    | some (e, cs1) =>
      match cs1 with
      | [] => none
      | c :: cs2 =>
        if c = rbrace then some ([e], cs2)
        else if c = ',' then
          match cs2 with
          | c' :: cs3 =>
            if c' = ' ' then
              match parseEntries fuel cs3 with
              | none => none
              | some (es, cs4) => some (e :: es, cs4)
            else none
          | [] => none
        else none

/-- `ast.literal_eval` on the text the result writer produces: the dict
display is parsed back into the association list of its items (Python builds a
`dict` from them; on distinct keys the two are the same mapping). -/
def literalEvalFits (text : String) : Option (List (Nat × FitParams)) :=
  match text.toList with
  | [] => none
  | c :: cs =>
    if c = lbrace then
      if cs = [rbrace] then some []
      else
        match parseEntries cs.length cs with
        | none => none
        | some (es, rest) => if rest = [] then some es else none
    else none

/-! ### Rounding lemmas -/

/-- Round-half-even lands within half a unit of its argument. -/
theorem roundHalfEven_close (q : ℚ) : |(roundHalfEven q : ℚ) - q| ≤ 1/2 := by
  have h0 : (0:ℚ) ≤ q - ⌊q⌋ := by linarith [Int.floor_le q]
  have h1 : q - ⌊q⌋ < 1 := by linarith [Int.lt_floor_add_one q]
  unfold roundHalfEven
  split_ifs <;> rw [abs_le] <;> push_cast <;> constructor <;> linarith

/-- The output of `round(x, 2)` carries at most two decimal places. -/
theorem round2_cent (q : ℚ) : isCent (round2 q) := by
  unfold isCent round2
  rw [mul_comm, div_mul_cancel₀ _ (by norm_num : (100:ℚ) ≠ 0), Rat.den_intCast]

/-- `round(x, 2)` lands within `1/100` of its argument. -/
theorem round2_close (q : ℚ) : |round2 q - q| ≤ 1/100 := by
  have h := roundHalfEven_close (q * 100)
  have e : round2 q - q = ((roundHalfEven (q * 100) : ℚ) - q * 100) / 100 := by
    unfold round2; ring
  rw [e, abs_div, abs_of_pos (by norm_num : (0:ℚ) < 100)]
  rw [div_le_iff₀ (by norm_num : (0:ℚ) < 100)]
  linarith

/-! ### Association-list and deduplication lemmas -/

/-- Looking up a key of `l` in the association list that tabulates `f` over `l`
returns `f` of the key. -/
theorem lookup_map_self {α : Type} (f : Nat → α) :
    ∀ (l : List Nat) (p : Nat), p ∈ l →
      (l.map (fun x => (x, f x))).lookup p = some (f p)
  | x :: xs, p, hp => by
    by_cases h : p = x
    · subst h; simp [List.lookup]
    · have hx : p ∈ xs := by
        rcases List.mem_cons.mp hp with h' | h'
        · exact absurd h' h
        · exact h'
      simpa [List.lookup, beq_false_of_ne h] using lookup_map_self f xs p hx

/-- Membership is preserved by first-occurrence deduplication. -/
theorem mem_uniqueFirst (l : List Nat) (p : Nat) (hp : p ∈ l) : p ∈ uniqueFirst l := by
  match l with
  | [] => cases hp
  | x :: xs =>
    rw [uniqueFirst]
    by_cases h : p = x
    · exact h ▸ List.mem_cons_self _ _
    · have hx : p ∈ xs := by
        rcases List.mem_cons.mp hp with h' | h'
        · exact absurd h' h
        · exact h'
      refine List.mem_cons_of_mem _ (mem_uniqueFirst _ p ?_)
      simp only [List.mem_filter, decide_eq_true_eq]
      exact ⟨hx, h⟩
termination_by l.length
decreasing_by exact Nat.lt_succ_of_le (List.length_filter_le _ xs)

/-! ### Least-squares algebra -/

/-- On exactly collinear data `y = a + b·x`, the y sum is determined by the
x sum. -/
theorem sumY_of_linear (a b : ℚ) (pts : List (ℚ × ℚ))
    (h : ∀ pt ∈ pts, pt.2 = a + b * pt.1) :
    sumY pts = a * pts.length + b * sumX pts := by
  induction pts with
  | nil => simp [sumY, sumX]
  | cons pt pts ih =>
    have hpt := h pt (List.mem_cons_self _ _)
    have ih' := ih (fun p hp => h p (List.mem_cons_of_mem _ hp))
    simp only [sumY, sumX, List.map_cons, List.sum_cons, List.length_cons] at ih' ⊢
    rw [hpt, ih']
    push_cast
    ring

/-- On exactly collinear data `y = a + b·x`, the x·y sum is determined by the
x and x² sums. -/
theorem sumXY_of_linear (a b : ℚ) (pts : List (ℚ × ℚ))
    (h : ∀ pt ∈ pts, pt.2 = a + b * pt.1) :
    sumXY pts = a * sumX pts + b * sumXX pts := by
  induction pts with
  | nil => simp [sumXY, sumX, sumXX]
  | cons pt pts ih =>
    have hpt := h pt (List.mem_cons_self _ _)
    have ih' := ih (fun p hp => h p (List.mem_cons_of_mem _ hp))
    simp only [sumXY, sumX, sumXX, List.map_cons, List.sum_cons] at ih' ⊢
    rw [hpt, ih']
    ring

/-- Expansion of a sum of squared deviations. -/
theorem sum_sq_sub (l : List ℚ) (m : ℚ) :
    (l.map (fun x => (x - m) ^ 2)).sum =
      (l.map (fun x => x * x)).sum - 2 * m * l.sum + l.length * m ^ 2 := by
  induction l with
  | nil => simp
  | cons x l ih =>
    simp only [List.map_cons, List.sum_cons, List.length_cons] at ih ⊢
    rw [ih]
    push_cast
    ring

/-- A list of nonnegative rationals with a positive member has positive sum. -/
theorem list_sum_pos_of_mem (l : List ℚ) (hnn : ∀ x ∈ l, 0 ≤ x) (y : ℚ)
    (hy : y ∈ l) (hypos : 0 < y) : 0 < l.sum := by
  induction l with
  | nil => cases hy
  | cons x l ih =>
    rw [List.sum_cons]
    rcases List.mem_cons.mp hy with rfl | hy'
    · have : (0:ℚ) ≤ l.sum := List.sum_nonneg (fun z hz => hnn z (List.mem_cons_of_mem _ hz))
      linarith
    · have hx : 0 ≤ x := hnn x (List.mem_cons_self _ _)
      have := ih (fun z hz => hnn z (List.mem_cons_of_mem _ hz)) hy'
      linarith

/-- With two distinct abscissas, the normal-equations denominator
`n·Σx² − (Σx)²` is strictly positive. -/
theorem normalEq_denom_pos (pts : List (ℚ × ℚ)) (x1 x2 : ℚ)
    (h1 : x1 ∈ pts.map Prod.fst) (h2 : x2 ∈ pts.map Prod.fst) (hne : x1 ≠ x2) :
    0 < (pts.length : ℚ) * sumXX pts - sumX pts * sumX pts := by
  have hlen : (pts.map Prod.fst).length = pts.length := List.length_map _ _
  have hn0 : (0:ℚ) < (pts.length : ℚ) := by
    have hne' : pts.map Prod.fst ≠ [] := List.ne_nil_of_mem h1
    have : 0 < pts.length := by
      rw [← hlen]
      exact List.length_pos.mpr hne'
    exact_mod_cast this
  have hsx : sumX pts = (pts.map Prod.fst).sum := rfl
  have hsxx : sumXX pts = ((pts.map Prod.fst).map (fun x => x * x)).sum := by
    unfold sumXX
    rw [List.map_map]
    rfl
  set l := pts.map Prod.fst with hl
  set m : ℚ := l.sum / (pts.length : ℚ) with hm
  have key : (pts.length : ℚ) * sumXX pts - sumX pts * sumX pts =
      (pts.length : ℚ) * (l.map (fun x => (x - m) ^ 2)).sum := by
    rw [sum_sq_sub l m, hsx, hsxx, hm, hl, hlen]
    field_simp
    ring
  rw [key]
  apply mul_pos hn0
  have hone : x1 ≠ m ∨ x2 ≠ m := by
    by_contra hc
    push_neg at hc
    exact hne (hc.1.trans hc.2.symm)
  have hnn : ∀ z ∈ l.map (fun x => (x - m) ^ 2), 0 ≤ z := by
    intro z hz
    rcases List.mem_map.mp hz with ⟨x, _, rfl⟩
    exact sq_nonneg _
  rcases hone with hx | hx
  · exact list_sum_pos_of_mem _ hnn ((x1 - m) ^ 2) (List.mem_map_of_mem _ h1)
      ((sq_nonneg _).lt_of_ne (Ne.symm (pow_ne_zero 2 (sub_ne_zero.mpr hx))))
  · exact list_sum_pos_of_mem _ hnn ((x2 - m) ^ 2) (List.mem_map_of_mem _ h2)
      ((sq_nonneg _).lt_of_ne (Ne.symm (pow_ne_zero 2 (sub_ne_zero.mpr hx))))

/-- On exactly collinear data with two distinct abscissas, the least-squares
line recovers the true slope and intercept. -/
theorem olsFit_collinear (pts : List (ℚ × ℚ)) (a b : ℚ)
    (h : ∀ pt ∈ pts, pt.2 = a + b * pt.1)
    (x1 x2 : ℚ) (h1 : x1 ∈ pts.map Prod.fst) (h2 : x2 ∈ pts.map Prod.fst)
    (hne : x1 ≠ x2) : olsFit pts = (b, a) := by
  have hD := normalEq_denom_pos pts x1 x2 h1 h2 hne
  have hsy := sumY_of_linear a b pts h
  have hsxy := sumXY_of_linear a b pts h
  have hn0 : (0:ℚ) < (pts.length : ℚ) := by
    have hne' : pts.map Prod.fst ≠ [] := List.ne_nil_of_mem h1
    have : 0 < pts.length := by
      rw [← List.length_map pts Prod.fst]
      exact List.length_pos.mpr hne'
    exact_mod_cast this
  have hslope : olsSlope pts = b := by
    unfold olsSlope
    rw [hsxy, hsy]
    have e : (pts.length : ℚ) * (a * sumX pts + b * sumXX pts) -
        sumX pts * (a * (pts.length : ℚ) + b * sumX pts) =
        b * ((pts.length : ℚ) * sumXX pts - sumX pts * sumX pts) := by ring
    rw [e, mul_div_assoc, div_self (ne_of_gt hD), mul_one]
  have hint : olsIntercept pts = a := by
    unfold olsIntercept
    rw [hsy, hslope]
    field_simp
  unfold olsFit
  rw [hslope, hint]

/-! ### Loader lemmas -/

/-- A successful stamp-parsing pass returns one timestamp per file, each the
parsed stamp of the file at the same index. -/
theorem parseAllStamps_ok (toDT : String → Option Nat) :
    ∀ (fs : List String) (dts : List Nat), parseAllStamps toDT fs = .ok dts →
      dts.length = fs.length ∧
        ∀ i (hf : i < fs.length) (hd : i < dts.length),
          stampVal toDT (fs.get ⟨i, hf⟩) = some (dts.get ⟨i, hd⟩)
  | [], dts, h => by
    simp only [parseAllStamps] at h
    cases h
    exact ⟨rfl, fun i hf => absurd hf (Nat.not_lt_zero i)⟩
  | f :: fs, dts, h => by
    simp only [parseAllStamps] at h
    cases hs : stampOf f with
    | none => simp only [hs] at h; cases h
    | some s =>
      simp only [hs] at h
      cases hd : toDT s with
      | none => simp only [hd] at h; cases h
      | some d =>
        simp only [hd] at h
        cases hrec : parseAllStamps toDT fs with
        | error e => simp only [hrec, Except.map] at h; cases h
        | ok dts' =>
          simp only [hrec, Except.map] at h
          cases h
          obtain ⟨hlen, hidx⟩ := parseAllStamps_ok toDT fs dts' hrec
          refine ⟨by simp [hlen], ?_⟩
          intro i hf hdlt
          match i with
          | 0 => simp [stampVal, hs, hd]
          | i + 1 =>
            exact hidx i (Nat.lt_of_succ_lt_succ hf) (Nat.lt_of_succ_lt_succ hdlt)

/-- When every filename's stamp parses, the parsing pass succeeds. -/
theorem parseAllStamps_total (toDT : String → Option Nat) :
    ∀ (fs : List String), (∀ f ∈ fs, stampVal toDT f ≠ none) →
      ∃ dts, parseAllStamps toDT fs = .ok dts
  | [], _ => ⟨[], rfl⟩
  | f :: fs, h => by
    have hf := h f (List.mem_cons_self _ _)
    obtain ⟨dts, hdts⟩ := parseAllStamps_total toDT fs
      (fun g hg => h g (List.mem_cons_of_mem _ hg))
    simp only [stampVal] at hf
    cases hs : stampOf f with
    | none => rw [hs] at hf; exact absurd rfl hf
    | some s =>
      rw [hs] at hf
      simp only [Option.some_bind] at hf
      cases hd : toDT s with
      | none => exact absurd hd hf
      | some d =>
        exact ⟨d :: dts, by simp [parseAllStamps, hs, hd, hdts, Except.map]⟩

/-- When some filename's stamp fails to parse, the parsing pass raises an
`IndexError` or a datetime parse error naming such a file — never any other
error. -/
theorem parseAllStamps_fails (toDT : String → Option Nat) :
    ∀ (fs : List String) (g : String), g ∈ fs → stampVal toDT g = none →
      ∃ g', g' ∈ fs ∧ stampVal toDT g' = none ∧
        (parseAllStamps toDT fs = .error (.stampIndexError g') ∨
         parseAllStamps toDT fs = .error (.stampParseError g'))
  | f :: fs, g, hg, hbad => by
    cases hs : stampOf f with
    | none =>
      exact ⟨f, List.mem_cons_self _ _, by simp [stampVal, hs],
        Or.inl (by simp [parseAllStamps, hs])⟩
    | some s =>
      cases hd : toDT s with
      | none =>
        exact ⟨f, List.mem_cons_self _ _, by simp [stampVal, hs, hd],
          Or.inr (by simp [parseAllStamps, hs, hd])⟩
      | some d =>
        have hgf : g ∈ fs := by
          rcases List.mem_cons.mp hg with rfl | h'
          · exact absurd hbad (by simp [stampVal, hs, hd])
          · exact h'
        obtain ⟨g', hg', hbad', hres⟩ := parseAllStamps_fails toDT fs g hgf hbad
        refine ⟨g', List.mem_cons_of_mem _ hg', hbad', ?_⟩
        rcases hres with hres | hres
        · exact Or.inl (by simp [parseAllStamps, hs, hd, hres, Except.map])
        · exact Or.inr (by simp [parseAllStamps, hs, hd, hres, Except.map])

/-- With no explicit filename, a nonempty set of discovered `.tsv` files, and
every stamp parseable, the loader selects a discovered file attaining the
maximal parsed timestamp. -/
theorem selectDataFile_max (toDT : String → Option Nat) (listing : List String)
    (hne : listing.filter (fun f => endsWithStr f ".tsv") ≠ [])
    (hparse : ∀ f ∈ listing.filter (fun f => endsWithStr f ".tsv"), stampVal toDT f ≠ none) :
    ∃ f m, selectDataFile toDT listing none = .ok f ∧
      f ∈ listing.filter (fun f => endsWithStr f ".tsv") ∧
      stampVal toDT f = some m ∧
      ∀ g ∈ listing.filter (fun f => endsWithStr f ".tsv"),
        ∀ d, stampVal toDT g = some d → d ≤ m := by
  obtain ⟨dts, hdts⟩ := parseAllStamps_total toDT _ hparse
  obtain ⟨hlen, hidx⟩ := parseAllStamps_ok toDT _ dts hdts
  have hdtsne : dts ≠ [] := by
    intro h0
    rw [h0] at hlen
    exact hne (List.eq_nil_of_length_eq_zero hlen.symm)
  cases hmax : dts.max? with
  | none => exact absurd (List.max?_eq_none_iff.mp hmax) hdtsne
  | some m =>
    obtain ⟨hm_mem, hm_max⟩ := List.max?_eq_some_iff'.mp hmax
    have hidxlt : dts.indexOf m < dts.length := List.indexOf_lt_length.mpr hm_mem
    have hidxlt' : dts.indexOf m <
        (listing.filter (fun f => endsWithStr f ".tsv")).length := by
      rw [← hlen]; exact hidxlt
    have hget : (listing.filter (fun f => endsWithStr f ".tsv")).get? (dts.indexOf m) =
        some ((listing.filter (fun f => endsWithStr f ".tsv")).get ⟨dts.indexOf m, hidxlt'⟩) :=
      List.get?_eq_get hidxlt'
    have hfmem : (listing.filter (fun f => endsWithStr f ".tsv")).get
        ⟨dts.indexOf m, hidxlt'⟩ ∈ listing.filter (fun f => endsWithStr f ".tsv") :=
      List.get_mem _ _ _
    have hstamp : stampVal toDT ((listing.filter (fun f => endsWithStr f ".tsv")).get
        ⟨dts.indexOf m, hidxlt'⟩) = some m := by
      have h1 := hidx (dts.indexOf m) hidxlt' hidxlt
      rw [h1, List.indexOf_get]
    refine ⟨_, m, ?_, hfmem, hstamp, ?_⟩
    · simp only [selectDataFile, hdts, hmax, hget]
      simp [hfmem]
    · intro g hg d hgd
      obtain ⟨j, hj⟩ := List.mem_iff_get.mp hg
      have h2 := hidx j.1 j.2 (by rw [hlen]; exact j.2)
      rw [hj] at h2
      rw [h2] at hgd
      cases hgd
      exact hm_max _ (List.get_mem _ _ _)

/-- With an explicit filename and every stamp parseable: a discovered filename
is returned as given; an absent one raises the assertion error naming the
missing file and the search directory. -/
theorem selectDataFile_some_spec (toDT : String → Option Nat) (listing : List String)
    (f : String)
    (hparse : ∀ g ∈ listing.filter (fun g => endsWithStr g ".tsv"), stampVal toDT g ≠ none) :
    (f ∈ listing.filter (fun g => endsWithStr g ".tsv") →
      selectDataFile toDT listing (some f) = .ok f) ∧
    (f ∉ listing.filter (fun g => endsWithStr g ".tsv") →
      selectDataFile toDT listing (some f) =
        .error (.missingFile f AUTOCALIBRATION_DATA_PATH)) := by
  obtain ⟨dts, hdts⟩ := parseAllStamps_total toDT _ hparse
  constructor
  · intro hmem
    simp only [selectDataFile, hdts]
    simp [hmem]
  · intro hmem
    simp only [selectDataFile, hdts]
    simp [hmem]

/-- With an explicit filename the loader never falls back to a different file:
a successful selection returns exactly the requested name. -/
theorem selectDataFile_no_fallback (toDT : String → Option Nat) (listing : List String)
    (f g : String) (h : selectDataFile toDT listing (some f) = .ok g) : g = f := by
  simp only [selectDataFile] at h
  cases hdts : parseAllStamps toDT (listing.filter (fun g => endsWithStr g ".tsv")) with
  | error e => rw [hdts] at h; cases h
  | ok dts =>
    rw [hdts] at h
    by_cases hmem : f ∈ listing.filter (fun g => endsWithStr g ".tsv")
    · simp [hmem] at h; exact h.symm
    · simp [hmem] at h

/-- With no explicit filename and no discovered `.tsv` files, selection raises
on `max()` of an empty sequence. -/
theorem selectDataFile_empty (toDT : String → Option Nat) (listing : List String)
    (h : listing.filter (fun f => endsWithStr f ".tsv") = []) :
    selectDataFile toDT listing none = .error .emptyMax := by
  simp [selectDataFile, h, parseAllStamps]

/-- When any discovered filename's stamp fails to parse, selection raises a
stamp error naming such a file — regardless of the requested filename. -/
theorem selectDataFile_parse_error (toDT : String → Option Nat) (listing : List String)
    (dfn : Option String) (g : String)
    (hg : g ∈ listing.filter (fun f => endsWithStr f ".tsv"))
    (hbad : stampVal toDT g = none) :
    ∃ g', g' ∈ listing.filter (fun f => endsWithStr f ".tsv") ∧ stampVal toDT g' = none ∧
      (selectDataFile toDT listing dfn = .error (.stampIndexError g') ∨
       selectDataFile toDT listing dfn = .error (.stampParseError g')) := by
  obtain ⟨g', hg', hbad', hres⟩ := parseAllStamps_fails toDT _ g hg hbad
  refine ⟨g', hg', hbad', ?_⟩
  rcases hres with hres | hres
  · exact Or.inl (by simp [selectDataFile, hres])
  · exact Or.inr (by simp [selectDataFile, hres])

/-- A failing literal-evaluation pass raises only content errors. -/
theorem litEvalAll_error_content (litEval : String → Option EventRaw) :
    ∀ (cs : List String) (e : LoadError), litEvalAll litEval cs = .error e →
      ∃ c, e = .contentError c
  | [], e, h => by simp [litEvalAll] at h
  | c :: cs, e, h => by
    simp only [litEvalAll] at h
    cases hc : litEval c with
    | none =>
      simp only [hc] at h
      cases h
      exact ⟨c, rfl⟩
    | some r =>
      simp only [hc] at h
      cases hrec : litEvalAll litEval cs with
      | error e' =>
        rw [hrec] at h
        simp only [Except.map] at h
        cases h
        exact litEvalAll_error_content litEval cs _ hrec
      | ok rs =>
        rw [hrec] at h
        simp only [Except.map] at h
        exact Except.noConfusion h

/-- A selection error propagates unchanged through the loader. -/
theorem load_error_of_select (env : Env) (dfn : Option String) (e : LoadError)
    (h : selectDataFile env.toDT env.listing dfn = .error e) :
    load_autocalibration_results env dfn = .error e := by
  simp [load_autocalibration_results, loadRaws, h, Except.map]

/-! ### Concrete environments used to exercise the theorems -/

/-- A raw event: poke 1, duration 12 ms, weight 0.001 g over one release
(so 1 uL per release). -/
def demoRaw1 : EventRaw := ⟨1, 12, 1/1000, 1⟩

/-- A raw event: poke 1, duration 14 ms, weight 0.002 g over one release
(so 2 uL per release). -/
def demoRaw2 : EventRaw := ⟨1, 14, 1/500, 1⟩

/-- An environment with one well-formed data file holding two print rows and a
comment row, and a mixed-effects oracle that converges. -/
def demoEnv : Env :=
  ⟨["cal-3.tsv"], fun s => s.toNat?,
   fun _ => [⟨"print", "e1"⟩, ⟨"print", "e2"⟩, ⟨"comment", "e3"⟩],
   fun c => if c = "e1" then some demoRaw1 else if c = "e2" then some demoRaw2 else none,
   fun _ => some ⟨⟨2, 10⟩, fun _ => ⟨0, 0⟩⟩⟩

/-- `demoEnv` with a mixed-effects oracle that raises. -/
def demoEnvNoMe : Env :=
  ⟨demoEnv.listing, demoEnv.toDT, demoEnv.readCsv, demoEnv.litEval, fun _ => none⟩

/-- An environment whose data directory holds one hyphen-free `.tsv` name and
one well-stamped one. -/
def badStampEnv : Env :=
  ⟨["bad.tsv", "a-1.tsv"], fun s => s.toNat?, fun _ => [], fun _ => none, fun _ => none⟩

/-- An environment whose data directory holds only one hyphen-free `.tsv`
name. -/
def badOnlyEnv : Env :=
  ⟨["bad.tsv"], fun s => s.toNat?, fun _ => [], fun _ => none, fun _ => none⟩

/-- An environment whose data directory is empty. -/
def emptyEnv : Env :=
  ⟨[], fun s => s.toNat?, fun _ => [], fun _ => none, fun _ => none⟩

/-! ### Claims about the loader -/

/-- C1: every row of the loaded event table carries
`single_release_vol = abs(release_weight) / n_release * 1000`, and a negated
input weight yields the very same derived row. -/
theorem claim_C1_single_release_vol (env : Env) (dfn : Option String)
    (raws : List EventRaw) (h : loadRaws env dfn = .ok raws) :
    load_autocalibration_results env dfn = .ok (raws.map deriveOne) ∧
    (∀ r : EventRaw,
      (deriveOne r).single_release_vol = |r.release_weight| / r.n_release * 1000) ∧
    (∀ r : EventRaw, deriveOne { r with release_weight := -r.release_weight } = deriveOne r) := by
  refine ⟨?_, fun r => rfl, fun r => ?_⟩
  · simp [load_autocalibration_results, h, deriveEvents, Except.map]
  · simp [deriveOne, abs_neg]

/-- C1 witness: the demo environment loads its two print rows, with the
derived volume of each row equal to `abs(weight) / n_release * 1000`. -/
theorem claim_C1_single_release_vol_witness :
    loadRaws demoEnv none = .ok [demoRaw1, demoRaw2] ∧
    load_autocalibration_results demoEnv none = .ok ([demoRaw1, demoRaw2].map deriveOne) ∧
    (∀ r : EventRaw,
      (deriveOne r).single_release_vol = |r.release_weight| / r.n_release * 1000) ∧
    (∀ r : EventRaw, deriveOne { r with release_weight := -r.release_weight } = deriveOne r) := by
  have h : loadRaws demoEnv none = .ok [demoRaw1, demoRaw2] := by with_unfolding_all rfl
  exact ⟨h, claim_C1_single_release_vol demoEnv none [demoRaw1, demoRaw2] h⟩

/-- C2: with no explicit filename, a nonempty set of discovered `.tsv` files
and every stamp parseable, the loader's selection step returns a discovered
file whose encoded timestamp is maximal; under injective stamps the same file
is returned for any reordering of the directory listing (the code consults
only name-encoded stamps, never filesystem modification times). -/
theorem claim_C2_most_recent_selection (toDT : String → Option Nat) (listing : List String)
    (hne : listing.filter (fun f => endsWithStr f ".tsv") ≠ [])
    (hparse : ∀ f ∈ listing.filter (fun f => endsWithStr f ".tsv"), stampVal toDT f ≠ none) :
    ∃ f m, selectDataFile toDT listing none = .ok f ∧
      f ∈ listing.filter (fun f => endsWithStr f ".tsv") ∧
      stampVal toDT f = some m ∧
      (∀ g ∈ listing.filter (fun f => endsWithStr f ".tsv"),
        ∀ d, stampVal toDT g = some d → d ≤ m) ∧
      ∀ listing₂, listing.Perm listing₂ →
        (∀ a ∈ listing.filter (fun f => endsWithStr f ".tsv"),
         ∀ b ∈ listing.filter (fun f => endsWithStr f ".tsv"),
          stampVal toDT a = stampVal toDT b → a = b) →
        selectDataFile toDT listing₂ none = .ok f := by
  obtain ⟨f, m, hsel, hmem, hstamp, hmax⟩ := selectDataFile_max toDT listing hne hparse
  refine ⟨f, m, hsel, hmem, hstamp, hmax, ?_⟩
  intro listing₂ hperm hinj
  have hfilperm : (listing.filter (fun f => endsWithStr f ".tsv")).Perm
      (listing₂.filter (fun f => endsWithStr f ".tsv")) := hperm.filter _
  have hne₂ : listing₂.filter (fun f => endsWithStr f ".tsv") ≠ [] := by
    intro h0
    rw [h0] at hfilperm
    exact hne (List.Perm.eq_nil hfilperm)
  have hparse₂ : ∀ f ∈ listing₂.filter (fun f => endsWithStr f ".tsv"),
      stampVal toDT f ≠ none :=
    fun g hg => hparse g (hfilperm.mem_iff.mpr hg)
  obtain ⟨f₂, m₂, hsel₂, hmem₂, hstamp₂, hmax₂⟩ := selectDataFile_max toDT listing₂ hne₂ hparse₂
  have hm₂m : m₂ ≤ m := hmax f₂ (hfilperm.mem_iff.mpr hmem₂) m₂ hstamp₂
  have hmm₂ : m ≤ m₂ := hmax₂ f (hfilperm.mem_iff.mp hmem) m hstamp
  have hmeq : m₂ = m := le_antisymm hm₂m hmm₂
  have : f₂ = f := by
    apply hinj f₂ (hfilperm.mem_iff.mpr hmem₂) f hmem
    rw [hstamp, hstamp₂, hmeq]
  rw [this] at hsel₂
  exact hsel₂

/-- C2 witness: among `a-2.tsv`, `b-3.tsv`, `c-1.tsv` (and a non-tsv name) the
loader selects a maximal-stamp file with no filename given. -/
theorem claim_C2_most_recent_selection_witness :
    ∃ f m,
      selectDataFile (fun s => s.toNat?) ["a-2.tsv", "b-3.tsv", "c-1.tsv", "junk.txt"] none =
        .ok f ∧
      f ∈ (["a-2.tsv", "b-3.tsv", "c-1.tsv", "junk.txt"].filter
        (fun f => endsWithStr f ".tsv")) ∧
      stampVal (fun s => s.toNat?) f = some m ∧
      (∀ g ∈ (["a-2.tsv", "b-3.tsv", "c-1.tsv", "junk.txt"].filter
          (fun f => endsWithStr f ".tsv")),
        ∀ d, stampVal (fun s => s.toNat?) g = some d → d ≤ m) ∧
      ∀ listing₂, (["a-2.tsv", "b-3.tsv", "c-1.tsv", "junk.txt"] : List String).Perm listing₂ →
        (∀ a ∈ (["a-2.tsv", "b-3.tsv", "c-1.tsv", "junk.txt"].filter
            (fun f => endsWithStr f ".tsv")),
         ∀ b ∈ (["a-2.tsv", "b-3.tsv", "c-1.tsv", "junk.txt"].filter
            (fun f => endsWithStr f ".tsv")),
          stampVal (fun s => s.toNat?) a = stampVal (fun s => s.toNat?) b → a = b) →
        selectDataFile (fun s => s.toNat?) listing₂ none = .ok f :=
  claim_C2_most_recent_selection (fun s => s.toNat?)
    ["a-2.tsv", "b-3.tsv", "c-1.tsv", "junk.txt"]
    (by with_unfolding_all exact of_decide_eq_true rfl)
    (by with_unfolding_all exact of_decide_eq_true rfl)

/-- C3 counterexample: with the data directory holding only the hyphen-free
name `bad.tsv`, requesting the absent `x.tsv` raises the stamp `IndexError`
naming `bad.tsv`, not the assertion error naming the missing file and the
search directory. -/
theorem claim_C3_missing_file_counterexample :
    ("x.tsv" ∉ badOnlyEnv.listing.filter (fun g => endsWithStr g ".tsv")) ∧
    load_autocalibration_results badOnlyEnv (some "x.tsv") =
      .error (.stampIndexError "bad.tsv") ∧
    load_autocalibration_results badOnlyEnv (some "x.tsv") ≠
      .error (.missingFile "x.tsv" AUTOCALIBRATION_DATA_PATH) := by
  refine ⟨?_, ?_, ?_⟩
  · with_unfolding_all exact of_decide_eq_true rfl
  · with_unfolding_all rfl
  · with_unfolding_all exact of_decide_eq_true rfl

/-- C3 (amended): provided every discovered `.tsv` filename carries a
parseable stamp, requesting an absent filename raises the hard error naming
the missing file and the search directory; requesting a present filename
selects exactly that file and never raises the missing-file error; and in all
cases a successful selection returns the requested file — never a silent
fallback. -/
theorem claim_C3_missing_file_error (env : Env) (f : String)
    (hparse : ∀ g ∈ env.listing.filter (fun g => endsWithStr g ".tsv"),
      stampVal env.toDT g ≠ none) :
    (f ∉ env.listing.filter (fun g => endsWithStr g ".tsv") →
      load_autocalibration_results env (some f) =
        .error (.missingFile f AUTOCALIBRATION_DATA_PATH)) ∧
    (f ∈ env.listing.filter (fun g => endsWithStr g ".tsv") →
      selectDataFile env.toDT env.listing (some f) = .ok f ∧
      ∀ g dir, load_autocalibration_results env (some f) ≠
        .error (.missingFile g dir)) ∧
    (∀ g, selectDataFile env.toDT env.listing (some f) = .ok g → g = f) := by
  obtain ⟨hok, hmiss⟩ := selectDataFile_some_spec env.toDT env.listing f hparse
  refine ⟨fun habs => load_error_of_select env (some f) _ (hmiss habs), fun hpres => ?_,
    selectDataFile_no_fallback env.toDT env.listing f⟩
  refine ⟨hok hpres, fun g dir hcontra => ?_⟩
  have hload : load_autocalibration_results env (some f) =
      (litEvalAll env.litEval
        (((env.readCsv (joinPath AUTOCALIBRATION_DATA_PATH f)).filter
          (fun r => r.subtype == "print")).map (fun r => r.content))).map deriveEvents := by
    simp [load_autocalibration_results, loadRaws, hok hpres]
  rw [hload] at hcontra
  cases hlit : litEvalAll env.litEval
      (((env.readCsv (joinPath AUTOCALIBRATION_DATA_PATH f)).filter
        (fun r => r.subtype == "print")).map (fun r => r.content)) with
  | error e =>
    rw [hlit] at hcontra
    simp only [Except.map] at hcontra
    cases hcontra
    obtain ⟨c, hc⟩ := litEvalAll_error_content env.litEval _ _ hlit
    exact LoadError.noConfusion hc
  | ok rs =>
    rw [hlit] at hcontra
    simp only [Except.map] at hcontra
    exact Except.noConfusion hcontra

/-- C3 witness: in an all-parseable directory, requesting the absent `x.tsv`
raises exactly the assertion error naming `x.tsv` and the data directory, and
requesting the present `cal-3.tsv` selects it. -/
theorem claim_C3_missing_file_error_witness :
    (load_autocalibration_results demoEnv (some "x.tsv") =
      .error (.missingFile "x.tsv" AUTOCALIBRATION_DATA_PATH)) ∧
    (selectDataFile demoEnv.toDT demoEnv.listing (some "cal-3.tsv") = .ok "cal-3.tsv") := by
  have hparse : ∀ g ∈ demoEnv.listing.filter (fun g => endsWithStr g ".tsv"),
      stampVal demoEnv.toDT g ≠ none := by
    with_unfolding_all exact of_decide_eq_true rfl
  constructor
  · exact (claim_C3_missing_file_error demoEnv "x.tsv" hparse).1
      (by with_unfolding_all exact of_decide_eq_true rfl)
  · exact ((claim_C3_missing_file_error demoEnv "cal-3.tsv" hparse).2.1
      (by with_unfolding_all exact of_decide_eq_true rfl)).1

/-- C9: the loader parses a stamp from every discovered `.tsv` filename before
the existence check, so any unparseable name fails the whole load with a stamp
error — whatever filename was requested, present or not — and with no filename
given and no `.tsv` files present the load fails on `max()` of an empty
sequence. -/
theorem claim_C9_parse_precedes_existence (env : Env) :
    (∀ (dfn : Option String) (g : String),
      g ∈ env.listing.filter (fun f => endsWithStr f ".tsv") →
      stampVal env.toDT g = none →
      ∃ g', g' ∈ env.listing.filter (fun f => endsWithStr f ".tsv") ∧
        stampVal env.toDT g' = none ∧
        (load_autocalibration_results env dfn = .error (.stampIndexError g') ∨
         load_autocalibration_results env dfn = .error (.stampParseError g'))) ∧
    (env.listing.filter (fun f => endsWithStr f ".tsv") = [] →
      load_autocalibration_results env none = .error .emptyMax) := by
  constructor
  · intro dfn g hg hbad
    obtain ⟨g', hg', hbad', hres⟩ := selectDataFile_parse_error env.toDT env.listing dfn g hg hbad
    refine ⟨g', hg', hbad', ?_⟩
    rcases hres with hres | hres
    · exact Or.inl (load_error_of_select env dfn _ hres)
    · exact Or.inr (load_error_of_select env dfn _ hres)
  · intro hempty
    exact load_error_of_select env none _ (selectDataFile_empty env.toDT env.listing hempty)

/-- C9 witness: with `bad.tsv` (hyphen-free) alongside the present, requested
`a-1.tsv`, the load fails with the stamp `IndexError`; with an empty directory
and no filename, it fails on the empty `max()`. -/
theorem claim_C9_parse_precedes_existence_witness :
    (∃ g', g' ∈ badStampEnv.listing.filter (fun f => endsWithStr f ".tsv") ∧
      stampVal badStampEnv.toDT g' = none ∧
      (load_autocalibration_results badStampEnv (some "a-1.tsv") =
        .error (.stampIndexError g') ∨
       load_autocalibration_results badStampEnv (some "a-1.tsv") =
        .error (.stampParseError g'))) ∧
    load_autocalibration_results emptyEnv none = .error .emptyMax := by
  constructor
  · exact (claim_C9_parse_precedes_existence badStampEnv).1 (some "a-1.tsv") "bad.tsv"
      (by with_unfolding_all exact of_decide_eq_true rfl)
      (by with_unfolding_all exact of_decide_eq_true rfl)
  · exact (claim_C9_parse_precedes_existence emptyEnv).2
      (by with_unfolding_all exact of_decide_eq_true rfl)

/-! ### Claims about the fitters -/

/-- The loaded demo event table. -/
def demoDf : List Event := deriveEvents [demoRaw1, demoRaw2]

/-- The mixed-effects fit object the demo oracle returns: population slope 2
and intercept 10, all random effects zero. -/
def demoMdf : MEFitResult := ⟨⟨2, 10⟩, fun _ => ⟨0, 0⟩⟩

/-- C5: every slope and intercept either fitter stores is `round(·, 2)` of the
unrounded fitted value — hence an integer multiple of 1/100 — and the
mixed-effects fitter's unrounded per-poke value is the population fixed effect
plus that poke's random effect. -/
theorem claim_C5_two_decimal_rounding (autocal_df : List Event) :
    (∀ p fit, (p, fit) ∈ get_linear_regression_parameters autocal_df →
      fit.s = round2 (olsSlope (ptsOf autocal_df p)) ∧
      fit.i = round2 (olsIntercept (ptsOf autocal_df p)) ∧
      isCent fit.s ∧ isCent fit.i) ∧
    (∀ (meFit : List Event → Option MEFitResult) mdf ps,
      meFit autocal_df = some mdf →
      get_mixed_effects_regression_parameters meFit autocal_df = some ps →
      ∀ p fit, (p, fit) ∈ ps →
        fit.s = round2 (mdf.fe_params.single_release_vol +
          (mdf.random_effects p).single_release_vol) ∧
        fit.i = round2 (mdf.fe_params.Intercept + (mdf.random_effects p).Group) ∧
        isCent fit.s ∧ isCent fit.i) := by
  constructor
  · intro p fit hmem
    obtain ⟨q, _, hq⟩ := List.mem_map.mp hmem
    obtain ⟨hq1, hq2⟩ := Prod.mk.injEq .. ▸ hq
    subst hq1
    rw [← hq2]
    exact ⟨rfl, rfl, round2_cent _, round2_cent _⟩
  · intro meFit mdf ps hmdf hps p fit hmem
    rw [get_mixed_effects_regression_parameters, hmdf] at hps
    cases hps
    obtain ⟨q, _, hq⟩ := List.mem_map.mp hmem
    obtain ⟨hq1, hq2⟩ := Prod.mk.injEq .. ▸ hq
    subst hq1
    rw [← hq2]
    exact ⟨rfl, rfl, round2_cent _, round2_cent _⟩

/-- C5 witness: on the demo table the independent fitter stores poke 1 ↦
(s = 2, i = 10) and the mixed-effects fitter stores the rounded sum of fixed
and random effects. -/
theorem claim_C5_two_decimal_rounding_witness :
    (((1 : Nat), (⟨2, 10⟩ : FitParams)) ∈ get_linear_regression_parameters demoDf ∧
      (⟨2, 10⟩ : FitParams).s = round2 (olsSlope (ptsOf demoDf 1)) ∧
      (⟨2, 10⟩ : FitParams).i = round2 (olsIntercept (ptsOf demoDf 1)) ∧
      isCent (⟨2, 10⟩ : FitParams).s ∧ isCent (⟨2, 10⟩ : FitParams).i) ∧
    (((1 : Nat), (⟨2, 10⟩ : FitParams)) ∈ [((1 : Nat), (⟨2, 10⟩ : FitParams))] ∧
      (⟨2, 10⟩ : FitParams).s = round2 (demoMdf.fe_params.single_release_vol +
        (demoMdf.random_effects 1).single_release_vol) ∧
      (⟨2, 10⟩ : FitParams).i = round2 (demoMdf.fe_params.Intercept +
        (demoMdf.random_effects 1).Group) ∧
      isCent (⟨2, 10⟩ : FitParams).s ∧ isCent (⟨2, 10⟩ : FitParams).i) := by
  have hlr : ((1 : Nat), (⟨2, 10⟩ : FitParams)) ∈ get_linear_regression_parameters demoDf := by
    with_unfolding_all exact of_decide_eq_true rfl
  have hmdf : demoEnv.meFit demoDf = some demoMdf := rfl
  have hps : get_mixed_effects_regression_parameters demoEnv.meFit demoDf =
      some [((1 : Nat), (⟨2, 10⟩ : FitParams))] := by
    with_unfolding_all rfl
  have hmem : ((1 : Nat), (⟨2, 10⟩ : FitParams)) ∈ [((1 : Nat), (⟨2, 10⟩ : FitParams))] :=
    List.mem_singleton.mpr rfl
  exact ⟨⟨hlr, (claim_C5_two_decimal_rounding demoDf).1 1 _ hlr⟩,
    ⟨hmem, (claim_C5_two_decimal_rounding demoDf).2 demoEnv.meFit demoMdf _ hmdf hps 1 _ hmem⟩⟩

/-- C7: on a synthetic event table whose events for poke `p` satisfy
`release_duration = a + b · single_release_vol` exactly, with two events of
distinct volumes for `p`, the independent fitter stores exactly
`(round(b, 2), round(a, 2))` for `p`, within 1/100 of the ground truth. -/
theorem claim_C7_exact_recovery (autocal_df : List Event) (p : Nat) (a b : ℚ)
    (hlin : ∀ e ∈ autocal_df, e.poke = p →
      e.release_duration = a + b * e.single_release_vol)
    (hdistinct : ∃ e1 ∈ autocal_df, ∃ e2 ∈ autocal_df, e1.poke = p ∧ e2.poke = p ∧
      e1.single_release_vol ≠ e2.single_release_vol) :
    (get_linear_regression_parameters autocal_df).lookup p =
      some ⟨round2 b, round2 a⟩ ∧
    |round2 b - b| ≤ 1/100 ∧ |round2 a - a| ≤ 1/100 := by
  obtain ⟨e1, he1, e2, he2, hp1, hp2, hvne⟩ := hdistinct
  have hmem : p ∈ autocal_df.map (fun e => e.poke) := List.mem_map.mpr ⟨e1, he1, hp1⟩
  have hup : p ∈ uniqueFirst (autocal_df.map (fun e => e.poke)) :=
    mem_uniqueFirst _ p hmem
  have he1f : e1 ∈ autocal_df.filter (fun e => e.poke == p) :=
    List.mem_filter.mpr ⟨he1, by simp [hp1]⟩
  have he2f : e2 ∈ autocal_df.filter (fun e => e.poke == p) :=
    List.mem_filter.mpr ⟨he2, by simp [hp2]⟩
  have hx1 : e1.single_release_vol ∈ (ptsOf autocal_df p).map Prod.fst :=
    List.mem_map.mpr ⟨(e1.single_release_vol, e1.release_duration),
      List.mem_map.mpr ⟨e1, he1f, rfl⟩, rfl⟩
  have hx2 : e2.single_release_vol ∈ (ptsOf autocal_df p).map Prod.fst :=
    List.mem_map.mpr ⟨(e2.single_release_vol, e2.release_duration),
      List.mem_map.mpr ⟨e2, he2f, rfl⟩, rfl⟩
  have hall : ∀ pt ∈ ptsOf autocal_df p, pt.2 = a + b * pt.1 := by
    intro pt hpt
    obtain ⟨e, hef, he⟩ := List.mem_map.mp hpt
    obtain ⟨hedf, hep⟩ := List.mem_filter.mp hef
    rw [← he]
    exact hlin e hedf (by simpa using hep)
  have hols : olsFit (ptsOf autocal_df p) = (b, a) :=
    olsFit_collinear _ a b hall _ _ hx1 hx2 hvne
  refine ⟨?_, round2_close b, round2_close a⟩
  have hlk := lookup_map_self
    (fun poke => (⟨round2 (olsFit (ptsOf autocal_df poke)).1,
                   round2 (olsFit (ptsOf autocal_df poke)).2⟩ : FitParams))
    (uniqueFirst (autocal_df.map (fun e => e.poke))) p hup
  rw [get_linear_regression_parameters, hlk]
  simp [hols]

/-- C7 witness: the demo table realizes `duration = 10 + 2 · volume` for
poke 1 with volumes 1 and 2, and the fitter stores exactly (2, 10). -/
theorem claim_C7_exact_recovery_witness :
    (get_linear_regression_parameters demoDf).lookup 1 =
      some ⟨round2 2, round2 10⟩ ∧
    |round2 2 - (2:ℚ)| ≤ 1/100 ∧ |round2 10 - (10:ℚ)| ≤ 1/100 :=
  claim_C7_exact_recovery demoDf 1 10 2
    (by with_unfolding_all exact of_decide_eq_true rfl)
    (by with_unfolding_all exact of_decide_eq_true rfl)

/-! ### Claims about the entry point -/

/-- C4: a successful run writes to the results directory exactly the `repr` of
the mapping from each poke to its slope/intercept pair, drawn from the
mixed-effects fits when `save_mixed_effects` is true and from the independent
fits when it is false. -/
theorem claim_C4_writes_chosen_fits (env : Env) (dfn : Option String)
    (plot smef : Bool) (sfn : String) (fs fs' : FileSys)
    (lr me : List (Nat × FitParams))
    (h : get_poke_calibration_parameters env dfn plot smef sfn fs = (fs', .ok (lr, me))) :
    ∃ autocal_df, load_autocalibration_results env dfn = .ok autocal_df ∧
      lr = get_linear_regression_parameters autocal_df ∧
      get_mixed_effects_regression_parameters env.meFit autocal_df = some me ∧
      readFS fs' (joinPath AUTOCALIBRATION_RESULTS_PATH sfn) =
        some (reprFits (if smef then me else lr)) := by
  cases hload : load_autocalibration_results env dfn with
  | error e =>
    have hrun : get_poke_calibration_parameters env dfn plot smef sfn fs =
        (fs, .error (.loadError e)) := by
      unfold get_poke_calibration_parameters
      rw [hload]
    rw [hrun] at h
    exact Except.noConfusion (congrArg Prod.snd h)
  | ok autocal_df =>
    cases hme : get_mixed_effects_regression_parameters env.meFit autocal_df with
    | none =>
      have hrun : get_poke_calibration_parameters env dfn plot smef sfn fs =
          (fs, .error .meFitError) := by
        unfold get_poke_calibration_parameters
        rw [hload]
        simp only [hme]
      rw [hrun] at h
      exact Except.noConfusion (congrArg Prod.snd h)
    | some meps =>
      have hrun : get_poke_calibration_parameters env dfn plot smef sfn fs =
          (writeFile fs (joinPath AUTOCALIBRATION_RESULTS_PATH sfn)
            (if smef then reprFits meps
             else reprFits (get_linear_regression_parameters autocal_df)),
           .ok (get_linear_regression_parameters autocal_df, meps)) := by
        unfold get_poke_calibration_parameters
        rw [hload]
        simp only [hme]
      rw [hrun] at h
      have hfs : writeFile fs (joinPath AUTOCALIBRATION_RESULTS_PATH sfn)
          (if smef then reprFits meps
           else reprFits (get_linear_regression_parameters autocal_df)) = fs' :=
        congrArg Prod.fst h
      have hres := Except.ok.inj (congrArg Prod.snd h)
      have hlr : get_linear_regression_parameters autocal_df = lr :=
        congrArg Prod.fst hres
      have hmeps : meps = me := congrArg Prod.snd hres
      subst hlr
      subst hmeps
      refine ⟨autocal_df, rfl, rfl, hme, ?_⟩
      rw [← hfs]
      cases smef <;> simp [readFS, writeFile, List.lookup]

/-- C4 witness: the demo run with the default flags writes the `repr` of the
mixed-effects mapping to the results path and succeeds. -/
theorem claim_C4_writes_chosen_fits_witness :
    get_poke_calibration_parameters demoEnv none true true "calibration_results.txt" [] =
      ([(joinPath AUTOCALIBRATION_RESULTS_PATH "calibration_results.txt",
         reprFits [((1 : Nat), (⟨2, 10⟩ : FitParams))])],
       .ok ([((1 : Nat), (⟨2, 10⟩ : FitParams))], [((1 : Nat), (⟨2, 10⟩ : FitParams))])) ∧
    (∃ autocal_df, load_autocalibration_results demoEnv none = .ok autocal_df ∧
      [((1 : Nat), (⟨2, 10⟩ : FitParams))] = get_linear_regression_parameters autocal_df ∧
      get_mixed_effects_regression_parameters demoEnv.meFit autocal_df =
        some [((1 : Nat), (⟨2, 10⟩ : FitParams))] ∧
      readFS [(joinPath AUTOCALIBRATION_RESULTS_PATH "calibration_results.txt",
         reprFits [((1 : Nat), (⟨2, 10⟩ : FitParams))])]
        (joinPath AUTOCALIBRATION_RESULTS_PATH "calibration_results.txt") =
        some (reprFits (if true then [((1 : Nat), (⟨2, 10⟩ : FitParams))]
          else [((1 : Nat), (⟨2, 10⟩ : FitParams))]))) := by
  have h : get_poke_calibration_parameters demoEnv none true true "calibration_results.txt" [] =
      ([(joinPath AUTOCALIBRATION_RESULTS_PATH "calibration_results.txt",
         reprFits [((1 : Nat), (⟨2, 10⟩ : FitParams))])],
       .ok ([((1 : Nat), (⟨2, 10⟩ : FitParams))], [((1 : Nat), (⟨2, 10⟩ : FitParams))])) := by
    with_unfolding_all rfl
  exact ⟨h, claim_C4_writes_chosen_fits demoEnv none true true "calibration_results.txt"
    [] _ _ _ h⟩

/-- C8: the pair of fit collections a successful run returns does not depend
on the plot flag, the save flag, the output filename, or the prior filesystem,
and it is exactly (independent fits, mixed-effects fits) of the loaded
table. -/
theorem claim_C8_returns_both_collections (env : Env) (dfn : Option String)
    (p1 s1 : Bool) (f1 : String) (fs1 : FileSys)
    (p2 s2 : Bool) (f2 : String) (fs2 : FileSys) :
    (get_poke_calibration_parameters env dfn p1 s1 f1 fs1).2 =
      (get_poke_calibration_parameters env dfn p2 s2 f2 fs2).2 ∧
    (∀ autocal_df me, load_autocalibration_results env dfn = .ok autocal_df →
      get_mixed_effects_regression_parameters env.meFit autocal_df = some me →
      (get_poke_calibration_parameters env dfn p1 s1 f1 fs1).2 =
        .ok (get_linear_regression_parameters autocal_df, me)) := by
  constructor
  · unfold get_poke_calibration_parameters
    cases hload : load_autocalibration_results env dfn with
    | error e => rfl
    | ok autocal_df =>
      cases hme : get_mixed_effects_regression_parameters env.meFit autocal_df with
      | none => simp only [hme]
      | some meps => simp only [hme]
  · intro autocal_df me hload hme
    unfold get_poke_calibration_parameters
    rw [hload]
    simp only [hme]

/-- C8 witness: the demo run returns the same two fit collections under
opposite flag settings. -/
theorem claim_C8_returns_both_collections_witness :
    (get_poke_calibration_parameters demoEnv none true true "calibration_results.txt" []).2 =
      (get_poke_calibration_parameters demoEnv none false false "other.txt"
        [("x", "y")]).2 ∧
    (get_poke_calibration_parameters demoEnv none true true "calibration_results.txt" []).2 =
      .ok (get_linear_regression_parameters demoDf, [((1 : Nat), (⟨2, 10⟩ : FitParams))]) := by
  have hload : load_autocalibration_results demoEnv none = .ok demoDf := by
    with_unfolding_all rfl
  have hme : get_mixed_effects_regression_parameters demoEnv.meFit demoDf =
      some [((1 : Nat), (⟨2, 10⟩ : FitParams))] := by
    with_unfolding_all rfl
  exact ⟨(claim_C8_returns_both_collections demoEnv none true true "calibration_results.txt"
      [] false false "other.txt" [("x", "y")]).1,
    (claim_C8_returns_both_collections demoEnv none true true "calibration_results.txt"
      [] false false "other.txt" [("x", "y")]).2 demoDf _ hload hme⟩

/-- C10: both fit collections are computed before anything is written, so a
mixed-effects optimization failure aborts the run with an error and leaves the
filesystem untouched — no result file is created or modified — even when only
the independent fits were requested for saving. -/
theorem claim_C10_me_failure_atomic (env : Env) (dfn : Option String)
    (plot smef : Bool) (sfn : String) (fs : FileSys) (autocal_df : List Event)
    (hload : load_autocalibration_results env dfn = .ok autocal_df)
    (hfail : env.meFit autocal_df = none) :
    get_poke_calibration_parameters env dfn plot smef sfn fs = (fs, .error .meFitError) := by
  unfold get_poke_calibration_parameters
  rw [hload]
  simp only [show get_mixed_effects_regression_parameters env.meFit autocal_df = none from by
    simp [get_mixed_effects_regression_parameters, hfail]]

/-- C10 witness: with a failing mixed-effects oracle and the save flag set to
the independent fits, the run errors and the (nonempty) prior filesystem is
returned unchanged. -/
theorem claim_C10_me_failure_atomic_witness :
    get_poke_calibration_parameters demoEnvNoMe none true false "calibration_results.txt"
      [("x", "y")] = ([("x", "y")], .error .meFitError) :=
  claim_C10_me_failure_atomic demoEnvNoMe none true false "calibration_results.txt"
    [("x", "y")] demoDf (by with_unfolding_all rfl) rfl

/-! ### Digit-printing lemmas -/

/-- Digit characters are decimal digits. -/
theorem digitChar_isDigit (d : Nat) (hd : d < 10) : (digitChar d).isDigit = true := by
  interval_cases d <;> rfl

/-- Reading a digit character back gives the digit it names. -/
theorem digitChar_toNat (d : Nat) (hd : d < 10) : (digitChar d).toNat - 48 = d := by
  interval_cases d <;> rfl

/-- The digit loop only prepends to its accumulator. -/
theorem natDigitsAux_acc (n : Nat) (acc : List Char) :
    natDigitsAux n acc = natDigitsAux n [] ++ acc := by
  match n with
  | 0 => simp [natDigitsAux]
  | n + 1 =>
    simp only [natDigitsAux]
    rw [natDigitsAux_acc ((n + 1) / 10) (digitChar ((n + 1) % 10) :: acc),
      natDigitsAux_acc ((n + 1) / 10) [digitChar ((n + 1) % 10)]]
    simp
termination_by n
decreasing_by all_goals exact Nat.div_lt_self (Nat.succ_pos _) (by omega)

/-- The digit characters of a positive number, split at the last digit. -/
theorem natDigitsAux_pos (n : Nat) (hn : 0 < n) :
    natDigitsAux n [] = natDigitsAux (n / 10) [] ++ [digitChar (n % 10)] := by
  match n, hn with
  | n + 1, _ =>
    simp only [natDigitsAux]
    exact natDigitsAux_acc ((n + 1) / 10) [digitChar ((n + 1) % 10)]

/-- The digit loop prints only digit characters. -/
theorem natDigitsAux_all_digits (n : Nat) :
    ∀ c ∈ natDigitsAux n [], c.isDigit = true := by
  match n with
  | 0 => intro c hc; simp [natDigitsAux] at hc
  | n + 1 =>
    intro c hc
    rw [natDigitsAux_pos (n + 1) (Nat.succ_pos n)] at hc
    rcases List.mem_append.mp hc with hc | hc
    · exact natDigitsAux_all_digits ((n + 1) / 10) c hc
    · rw [List.mem_singleton.mp hc]
      exact digitChar_isDigit _ (Nat.mod_lt _ (by omega))
termination_by n
decreasing_by all_goals exact Nat.div_lt_self (Nat.succ_pos _) (by omega)

/-- Every character `natDigits` prints is a digit. -/
theorem natDigits_all_digits (n : Nat) : ∀ c ∈ natDigits n, c.isDigit = true := by
  intro c hc
  unfold natDigits at hc
  by_cases h : n = 0
  · rw [if_pos h] at hc
    rw [List.mem_singleton.mp hc]
    exact digitChar_isDigit 0 (by omega)
  · rw [if_neg h] at hc
    exact natDigitsAux_all_digits n c hc

/-- `natDigits` never prints the empty list. -/
theorem natDigits_ne_nil (n : Nat) : natDigits n ≠ [] := by
  unfold natDigits
  by_cases h : n = 0
  · simp [h]
  · rw [if_neg h]
    match n, Nat.pos_of_ne_zero h with
    | n + 1, _ =>
      rw [natDigitsAux_pos (n + 1) (Nat.succ_pos n)]
      simp

/-- Folding the digit-reading step over the printed digits of a positive
number recovers the number. -/
theorem digitsVal_natDigitsAux (n : Nat) (hn : 0 < n) :
    digitsVal (natDigitsAux n []) = n := by
  rw [natDigitsAux_pos n hn]
  unfold digitsVal
  rw [List.foldl_append]
  by_cases h : n / 10 = 0
  · simp only [h, natDigitsAux, List.foldl_nil, List.foldl_cons]
    rw [digitChar_toNat _ (Nat.mod_lt _ (by omega))]
    omega
  · have ih := digitsVal_natDigitsAux (n / 10) (Nat.pos_of_ne_zero h)
    unfold digitsVal at ih
    rw [ih, List.foldl_cons, List.foldl_nil,
      digitChar_toNat _ (Nat.mod_lt _ (by omega))]
    omega
termination_by n
decreasing_by all_goals exact Nat.div_lt_self (by omega) (by omega)

/-- Reading back the printed digits of any number recovers the number. -/
theorem digitsVal_natDigits (n : Nat) : digitsVal (natDigits n) = n := by
  unfold natDigits
  by_cases h : n = 0
  · simp [h, digitsVal, List.foldl, digitChar]
  · rw [if_neg h]
    exact digitsVal_natDigitsAux n (Nat.pos_of_ne_zero h)

/-! ### Parsing lemmas -/

/-- Maximal-munch splitting of an all-satisfying block followed by a
non-satisfying head. -/
theorem takeWhile_append_all (p : Char → Bool) (l1 l2 : List Char)
    (h1 : ∀ c ∈ l1, p c = true)
    (h2 : ∀ c, l2.head? = some c → p c = false) :
    (l1 ++ l2).takeWhile p = l1 ∧ (l1 ++ l2).dropWhile p = l2 := by
  induction l1 with
  | nil =>
    simp only [List.nil_append]
    cases l2 with
    | nil => simp
    | cons c l2' =>
      have hc := h2 c rfl
      simp [List.takeWhile_cons, List.dropWhile_cons, hc]
  | cons a l1 ih =>
    have ha := h1 a (List.mem_cons_self _ _)
    obtain ⟨iht, ihd⟩ := ih (fun c hc => h1 c (List.mem_cons_of_mem _ hc))
    simp [List.takeWhile_cons, List.dropWhile_cons, ha, iht, ihd]

/-- Parsing a nonempty digit block followed by a non-digit recovers its value,
its width, and the rest. -/
theorem parseDigits_append_of (ds rest : List Char) (hne : ds ≠ [])
    (hds : ∀ c ∈ ds, c.isDigit = true)
    (hrest : ∀ c, rest.head? = some c → c.isDigit = false) :
    parseDigits (ds ++ rest) = some (digitsVal ds, ds.length, rest) := by
  obtain ⟨ht, hd⟩ := takeWhile_append_all Char.isDigit ds rest hds hrest
  unfold parseDigits
  simp only [ht, hd]
  rw [if_neg (by simp [List.isEmpty_iff, hne])]

/-- Parsing the printed digits of `n` followed by a non-digit recovers `n`. -/
theorem parseDigits_natDigits (n : Nat) (rest : List Char)
    (hrest : ∀ c, rest.head? = some c → c.isDigit = false) :
    parseDigits (natDigits n ++ rest) = some (n, (natDigits n).length, rest) := by
  rw [parseDigits_append_of (natDigits n) rest (natDigits_ne_nil n)
    (natDigits_all_digits n) hrest, digitsVal_natDigits]

/-- Consuming an expected literal uncovers exactly what follows it. -/
theorem expectChars_append (pat rest : List Char) :
    expectChars pat (pat ++ rest) = some rest := by
  induction pat with
  | nil => rfl
  | cons p ps ih => simp [expectChars, ih]

/-- The fractional display is a nonempty run of digit characters whose read
value at its width is the centi-fraction. -/
theorem fracChars_spec (frac : Nat) (h : frac < 100) :
    fracChars frac ≠ [] ∧ (∀ c ∈ fracChars frac, c.isDigit = true) ∧
    (digitsVal (fracChars frac) : ℚ) / 10 ^ (fracChars frac).length =
      (frac : ℚ) / 100 := by
  have h10 : frac / 10 < 10 := by omega
  have hm10 : frac % 10 < 10 := by omega
  unfold fracChars
  by_cases h0 : frac = 0
  · subst h0
    refine ⟨by simp, ?_, ?_⟩
    · intro c hc
      rw [if_pos rfl] at hc
      rw [List.mem_singleton.mp hc]
      exact digitChar_isDigit 0 (by omega)
    · rw [if_pos rfl]
      simp [digitsVal, digitChar_toNat 0 (by omega)]
  · rw [if_neg h0]
    by_cases ht : frac % 10 = 0
    · rw [if_pos ht]
      refine ⟨by simp, ?_, ?_⟩
      · intro c hc
        rw [List.mem_singleton.mp hc]
        exact digitChar_isDigit _ h10
      · have hv : digitsVal [digitChar (frac / 10)] = frac / 10 := by
          simp [digitsVal, digitChar_toNat _ h10]
        rw [hv]
        have hfrac10 : frac / 10 * 10 = frac := Nat.div_mul_cancel (Nat.dvd_of_mod_eq_zero ht)
        have : ((frac / 10 : Nat) : ℚ) * 10 = (frac : ℚ) := by exact_mod_cast hfrac10
        rw [List.length_singleton, pow_one]
        rw [div_eq_div_iff (by norm_num) (by norm_num)]
        linarith
    · rw [if_neg ht]
      refine ⟨by simp, ?_, ?_⟩
      · intro c hc
        rcases List.mem_cons.mp hc with rfl | hc
        · exact digitChar_isDigit _ h10
        · rw [List.mem_singleton.mp hc]
          exact digitChar_isDigit _ hm10
      · have hv : digitsVal [digitChar (frac / 10), digitChar (frac % 10)] =
            10 * (frac / 10) + frac % 10 := by
          simp [digitsVal, digitChar_toNat _ h10, digitChar_toNat _ hm10]
        rw [hv]
        have hdm : 10 * (frac / 10) + frac % 10 = frac := by omega
        rw [hdm]
        norm_num

/-- A list headed by a non-digit begins with no digit. -/
theorem head_not_digit_cons (c : Char) (h : c.isDigit = false) (rest : List Char) :
    ∀ c', (c :: rest).head? = some c' → c'.isDigit = false := by
  intro c' hc'
  simp only [List.head?_cons, Option.some.injEq] at hc'
  rw [← hc']
  exact h

/-- A centi-value is its own floored hundredfold over 100. -/
theorem cent_eq_floor_div (q : ℚ) (hq : isCent q) :
    q = ((Int.floor (q * 100) : ℤ) : ℚ) / 100 := by
  unfold isCent at hq
  have h1 : ((100 * q).num : ℚ) = 100 * q := (Rat.den_eq_one_iff _).mp hq
  have h2 : q * 100 = ((100 * q).num : ℚ) := by rw [h1]; ring
  have h3 : Int.floor (q * 100) = (100 * q).num := by
    rw [h2, Int.floor_intCast]
  rw [h3, h1]
  field_simp

/-- Reading back the printed decimal of a centi-value recovers the value. -/
theorem parseQ2_reprQ2 (q : ℚ) (hq : isCent q) (rest : List Char)
    (hrest : ∀ c, rest.head? = some c → c.isDigit = false) :
    parseQ2 (reprQ2 q ++ rest) = some (q, rest) := by
  have hqval := cent_eq_floor_div q hq
  obtain ⟨hfne, hfdig, hfval⟩ := fracChars_spec ((Int.floor (q * 100)).natAbs % 100)
    (Nat.mod_lt _ (by omega))
  have hdotdig : ('.' : Char).isDigit = false := by decide
  have h1 : parseDigits (natDigits ((Int.floor (q * 100)).natAbs / 100) ++
      '.' :: (fracChars ((Int.floor (q * 100)).natAbs % 100) ++ rest)) =
      some ((Int.floor (q * 100)).natAbs / 100,
        (natDigits ((Int.floor (q * 100)).natAbs / 100)).length,
        '.' :: (fracChars ((Int.floor (q * 100)).natAbs % 100) ++ rest)) :=
    parseDigits_natDigits _ _ (head_not_digit_cons '.' hdotdig _)
  have h2 : parseDigits (fracChars ((Int.floor (q * 100)).natAbs % 100) ++ rest) =
      some (digitsVal (fracChars ((Int.floor (q * 100)).natAbs % 100)),
        (fracChars ((Int.floor (q * 100)).natAbs % 100)).length, rest) :=
    parseDigits_append_of _ _ hfne hfdig hrest
  have hval : ((((Int.floor (q * 100)).natAbs / 100 : Nat)) : ℚ) +
      (digitsVal (fracChars ((Int.floor (q * 100)).natAbs % 100)) : ℚ) /
        10 ^ (fracChars ((Int.floor (q * 100)).natAbs % 100)).length =
      (((Int.floor (q * 100)).natAbs : Nat) : ℚ) / 100 := by
    rw [hfval]
    have hsplit : (100 * ((Int.floor (q * 100)).natAbs / 100) +
        (Int.floor (q * 100)).natAbs % 100 : Nat) = (Int.floor (q * 100)).natAbs := by
      omega
    have hcast : (((Int.floor (q * 100)).natAbs : Nat) : ℚ) =
        100 * (((Int.floor (q * 100)).natAbs / 100 : Nat) : ℚ) +
        (((Int.floor (q * 100)).natAbs % 100 : Nat) : ℚ) := by
      exact_mod_cast hsplit.symm
    rw [hcast]
    ring
  by_cases hneg : Int.floor (q * 100) < 0
  · have hrepr : reprQ2 q ++ rest =
        '-' :: (natDigits ((Int.floor (q * 100)).natAbs / 100) ++
          '.' :: (fracChars ((Int.floor (q * 100)).natAbs % 100) ++ rest)) := by
      unfold reprQ2
      rw [if_pos hneg]
      simp
    have hz : Int.floor (q * 100) = -(((Int.floor (q * 100)).natAbs : ℤ)) := by omega
    have hq' : q = -((((Int.floor (q * 100)).natAbs : Nat) : ℚ) / 100) := by
      have hzq : ((Int.floor (q * 100) : ℤ) : ℚ) =
          -(((Int.floor (q * 100)).natAbs : Nat) : ℚ) := by exact_mod_cast hz
      linarith [hqval, hzq]
    rw [hrepr]
    unfold parseQ2
    simp [h1, h2]
    linarith [hval, hq']
  · cases hA : natDigits ((Int.floor (q * 100)).natAbs / 100) with
    | nil => exact absurd hA (natDigits_ne_nil _)
    | cons c0 A' =>
      have hc0dig : c0.isDigit = true :=
        natDigits_all_digits _ c0 (by rw [hA]; exact List.mem_cons_self _ _)
      have hc0 : ¬ (c0 = '-') := by
        intro h'
        rw [h'] at hc0dig
        exact absurd hc0dig (by decide)
      have hrepr : reprQ2 q ++ rest =
          c0 :: (A' ++ '.' :: (fracChars ((Int.floor (q * 100)).natAbs % 100) ++ rest)) := by
        unfold reprQ2
        rw [if_neg hneg, hA]
        simp
      have hz : Int.floor (q * 100) = (((Int.floor (q * 100)).natAbs : ℤ)) := by omega
      have hq' : q = (((Int.floor (q * 100)).natAbs : Nat) : ℚ) / 100 := by
        have hzq : ((Int.floor (q * 100) : ℤ) : ℚ) =
            (((Int.floor (q * 100)).natAbs : Nat) : ℚ) :=
          (congrArg (fun t : ℤ => (t : ℚ)) hz).trans (Int.cast_natCast _)
        linarith [hqval, hzq]
      rw [hrepr]
      unfold parseQ2
      simp only [if_neg hc0]
      rw [show c0 :: (A' ++ '.' :: (fracChars ((Int.floor (q * 100)).natAbs % 100) ++ rest)) =
        natDigits ((Int.floor (q * 100)).natAbs / 100) ++
          '.' :: (fracChars ((Int.floor (q * 100)).natAbs % 100) ++ rest) from by
        rw [hA]; rfl]
      simp [h1, h2]
      linarith [hval, hq']

/-- A list formed by consing a non-digit onto anything begins with no digit. -/
theorem head_not_digit_cons_append (c : Char) (h : c.isDigit = false)
    (l1 l2 : List Char) :
    ∀ c', ((c :: l1) ++ l2).head? = some c' → c'.isDigit = false := by
  intro c' hc'
  simp only [List.cons_append, List.head?_cons, Option.some.injEq] at hc'
  rw [← hc']
  exact h

/-- Reading back one printed dict item recovers the item. -/
theorem parseEntry_reprEntry (e : Nat × FitParams) (hs : isCent e.2.s)
    (hi : isCent e.2.i) (rest : List Char) :
    parseEntry (reprEntry e ++ rest) = some (e, rest) := by
  unfold parseEntry reprEntry
  simp only [List.append_assoc]
  rw [parseDigits_natDigits e.1 _ (head_not_digit_cons_append ':' (by decide) _ _)]
  simp only []
  rw [expectChars_append]
  simp only []
  rw [parseQ2_reprQ2 e.2.s hs _ (head_not_digit_cons_append ',' (by decide) _ _)]
  simp only []
  rw [expectChars_append]
  simp only []
  rw [parseQ2_reprQ2 e.2.i hi _ (head_not_digit_cons_append rbrace (by decide) _ _)]
  simp

/-- An item's printed form is never empty. -/
theorem reprEntry_ne_nil (e : Nat × FitParams) : reprEntry e ≠ [] := by
  unfold reprEntry
  intro h
  simp only [List.append_eq_nil] at h
  exact natDigits_ne_nil e.1 h.1.1.1.1.1

/-- The printed items are at least as many characters as there are items. -/
theorem entriesChars_length_ge (m : List (Nat × FitParams)) :
    m.length ≤ (entriesChars m).length := by
  match m with
  | [] => simp [entriesChars]
  | [e] => simp [entriesChars]
  | e :: e' :: es =>
    have ih := entriesChars_length_ge (e' :: es)
    simp only [entriesChars, List.length_append, List.length_cons] at ih ⊢
    omega

/-- For a nonempty mapping the printed items are more than the bare closing
brace. -/
theorem entriesChars_ne_single (m : List (Nat × FitParams)) (hm : m ≠ []) :
    entriesChars m ≠ [rbrace] := by
  match m with
  | [] => exact absurd rfl hm
  | [e] =>
    unfold entriesChars
    intro h
    have hlen := congrArg List.length h
    simp only [List.length_append, List.length_cons, List.length_singleton,
      List.length_nil] at hlen
    exact reprEntry_ne_nil e (List.eq_nil_of_length_eq_zero (by omega))
  | e :: e' :: es =>
    unfold entriesChars
    intro h
    have hlen := congrArg List.length h
    have hge := entriesChars_length_ge (e' :: es)
    simp at hlen hge
    omega

/-- Reading back the printed items of a nonempty mapping, with fuel at least
the item count, recovers the items and consumes the whole text. -/
theorem parseEntries_entriesChars (m : List (Nat × FitParams)) (hm : m ≠ [])
    (hcent : ∀ e ∈ m, isCent e.2.s ∧ isCent e.2.i) :
    ∀ fuel, m.length ≤ fuel → parseEntries fuel (entriesChars m) = some (m, []) := by
  match m with
  | [] => exact absurd rfl hm
  | [e] =>
    intro fuel hfuel
    match fuel, hfuel with
    | fuel + 1, _ =>
      obtain ⟨hs, hi⟩ := hcent e (List.mem_singleton.mpr rfl)
      unfold parseEntries entriesChars
      rw [parseEntry_reprEntry e hs hi [rbrace]]
      simp
  | e :: e' :: es =>
    intro fuel hfuel
    match fuel, hfuel with
    | fuel + 1, hfuel =>
      obtain ⟨hs, hi⟩ := hcent e (List.mem_cons_self _ _)
      have ih := parseEntries_entriesChars (e' :: es) (by simp)
        (fun x hx => hcent x (List.mem_cons_of_mem _ hx)) fuel
        (by simp only [List.length_cons] at hfuel ⊢; omega)
      unfold parseEntries entriesChars
      rw [parseEntry_reprEntry e hs hi (',' :: ' ' :: entriesChars (e' :: es))]
      simp only [if_true]
      rw [ih, if_neg (show ¬ ((',' : Char) = rbrace) from by decide)]

/-- C6: writing a fit collection of rounded (two-decimal) values through the
result writer and literal-evaluating the resulting text reproduces the
original mapping exactly. -/
theorem claim_C6_round_trip (m : List (Nat × FitParams))
    (hcent : ∀ e ∈ m, isCent e.2.s ∧ isCent e.2.i)
    (hkeys : (m.map Prod.fst).Nodup) :
    literalEvalFits (reprFits m) = some m := by
  unfold literalEvalFits reprFits
  rw [show (String.mk (lbrace :: entriesChars m)).toList = lbrace :: entriesChars m from rfl]
  simp only [if_true]
  by_cases hm : m = []
  · subst hm
    simp [entriesChars]
  · rw [if_neg (entriesChars_ne_single m hm),
      parseEntries_entriesChars m hm hcent (entriesChars m).length (entriesChars_length_ge m)]
    simp

/-- C6 witness: a two-poke collection with values 2.5, 3.0, −0.05, 1.23
survives the write/read round trip. -/
theorem claim_C6_round_trip_witness :
    literalEvalFits (reprFits [(1, ⟨5/2, 3⟩), (2, ⟨-(1/20), 123/100⟩)]) =
      some [(1, ⟨5/2, 3⟩), (2, ⟨-(1/20), 123/100⟩)] :=
  claim_C6_round_trip [(1, ⟨5/2, 3⟩), (2, ⟨-(1/20), 123/100⟩)]
    (by with_unfolding_all exact of_decide_eq_true rfl)
    (by with_unfolding_all exact of_decide_eq_true rfl)
